import Mathlib

/-!
Verification development for the metadata-extraction and naming engine of the
generated-docs import pipeline (`scripts/import-project.ts`, current revision
embedded in the repository's related documents).

Strings are modelled as `List Char`.  JavaScript string operations are
translated operation by operation:
* `String.prototype.toLowerCase`/`toUpperCase` are modelled on the ASCII range
  (`jsToLower`, `jsToUpper`), which is the range all decided claims live in;
* regular-expression matching is hand-compiled: each of the source's patterns
  is deterministic after greediness is resolved, so every pattern becomes a
  total function `List Char → Option (List Char)` returning the captured
  group of the leftmost match (`scanFirst` supplies the leftmost-match loop);
* `null` return values become `Option`.
-/

namespace GeneratedDocs

/-- JS `\s` (ASCII fragment): space, tab, newline, carriage return,
vertical tab, form feed. -/
def isJsSpace (c : Char) : Bool :=
  c.toNat = 32 || c.toNat = 9 || c.toNat = 10 || c.toNat = 13 || c.toNat = 11 || c.toNat = 12

/-- JS `\w`: ASCII letters, digits and underscore. -/
def isWordChar (c : Char) : Bool :=
  (97 ≤ c.toNat && c.toNat ≤ 122) || (65 ≤ c.toNat && c.toNat ≤ 90) ||
  (48 ≤ c.toNat && c.toNat ≤ 57) || c.toNat = 95

/-- ASCII alphanumeric, i.e. JS `[a-zA-Z0-9]`. -/
def isAsciiAlnum (c : Char) : Bool :=
  (97 ≤ c.toNat && c.toNat ≤ 122) || (65 ≤ c.toNat && c.toNat ≤ 90) ||
  (48 ≤ c.toNat && c.toNat ≤ 57)

/-- Lowercase ASCII letter, digit, or underscore: the characters other than
`-` that can appear in `slugify` output. -/
def isSlugCharU (c : Char) : Bool :=
  (97 ≤ c.toNat && c.toNat ≤ 122) || (48 ≤ c.toNat && c.toNat ≤ 57) || c.toNat = 95

/-- Lowercase ASCII letter or digit: the character class `[a-z0-9]` of the
spec's slug regular expression. -/
def isSlugChar (c : Char) : Bool :=
  (97 ≤ c.toNat && c.toNat ≤ 122) || (48 ≤ c.toNat && c.toNat ≤ 57)

/-- `String.prototype.toLowerCase`, ASCII fragment. -/
def jsToLower (c : Char) : Char :=
  if 65 ≤ c.toNat && c.toNat ≤ 90 then Char.ofNat (c.toNat + 32) else c

/-- `String.prototype.toUpperCase`, ASCII fragment. -/
def jsToUpper (c : Char) : Char :=
  if 97 ≤ c.toNat && c.toNat ≤ 122 then Char.ofNat (c.toNat - 32) else c

/-- One pass of a JS global replace of runs of `p`-characters by the single
character `r` (used for `.replace(/\s+/g, '-')` and `.replace(/[-]+/g, '-')`).
The flag records whether we are inside a run that has already emitted `r`. -/
def collapseRunsAux (p : Char → Bool) (r : Char) (inRun : Bool) : List Char → List Char
  | [] => []
  | c :: cs =>
    if p c then
      if inRun then collapseRunsAux p r true cs
      else r :: collapseRunsAux p r true cs
    else c :: collapseRunsAux p r false cs

def collapseRuns (p : Char → Bool) (r : Char) (l : List Char) : List Char :=
  collapseRunsAux p r false l

/-- The hyphen, character 45. -/
def isDash (c : Char) : Bool := c.toNat = 45

/-- Character class of `.replace(/^[-\s]+|[-\s]+$/g, '')`. -/
def isDashOrSpace (c : Char) : Bool := isDash c || isJsSpace c

/-- Character class kept by `.replace(/[^\w\s-]/g, '')`. -/
def keepSlugChar (c : Char) : Bool := isWordChar c || isJsSpace c || isDash c

/-- Remove the leading and the trailing run of `p`-characters
(JS `.replace(/^P+|P+$/g, '')`). -/
def trimEnds (p : Char → Bool) (l : List Char) : List Char :=
  ((l.dropWhile p).reverse.dropWhile p).reverse

/-- `slugify` from `import-project.ts`:
```
str.toLowerCase()
  .replace(/[^\w\s-]/g, '')
  .replace(/\s+/g, '-')
  .replace(/[-]+/g, '-')
  .replace(/^[-\s]+|[-\s]+$/g, '');
``` -/
def slugify (s : List Char) : List Char :=
  trimEnds isDashOrSpace
    (collapseRuns isDash '-'
      (collapseRuns isJsSpace '-'
        ((s.map jsToLower).filter keepSlugChar)))

/-- Matcher for the regular expression `^A+(-A+)*$` over character class `A`,
with `mode = false` expecting an `A`-run (`core` state) and `mode = true`
scanning after at least one `A` (`tail` state). -/
def matchesSlugWith (alnum : Char → Bool) (mode : Bool) : List Char → Bool
  | [] => mode
  | c :: cs =>
    if mode then
      if c.toNat = 45 then matchesSlugWith alnum false cs
      else alnum c && matchesSlugWith alnum true cs
    else alnum c && matchesSlugWith alnum true cs

/-- The spec's slug shape `^[a-z0-9]+(-[a-z0-9]+)*$`. -/
def matchesSlugRegex (l : List Char) : Bool := matchesSlugWith isSlugChar false l

/-- The slug shape actually produced by the code, `^[a-z0-9_]+(-[a-z0-9_]+)*$`
(JS `\w` keeps underscores). -/
def matchesSlugRegexU (l : List Char) : Bool := matchesSlugWith isSlugCharU false l

/-- Trailing-punctuation character class `[!?.,;:]` of `cleanAndTitleCase`. -/
def isPunctChar (c : Char) : Bool :=
  c.toNat = 33 || c.toNat = 63 || c.toNat = 46 || c.toNat = 44 || c.toNat = 59 || c.toNat = 58

/-- The leftmost (hence maximal) match of `([!?.,;:]+)\s*$`, as used by
`str.match` and `str.replace` in `cleanAndTitleCase`: if, after skipping
trailing whitespace, the string ends in a punctuation run, return the string
with run and trailing whitespace removed together with the run; otherwise the
regular expression does not match and the string is left untouched. -/
def splitTrailingPunct (s : List Char) : List Char × List Char :=
  let r1 := s.reverse.dropWhile isJsSpace
  let p := r1.takeWhile isPunctChar
  if p.isEmpty then (s, []) else ((r1.drop p.length).reverse, p.reverse)

/-- JS `String.prototype.trim` (ASCII whitespace fragment). -/
def jsTrim (l : List Char) : List Char := trimEnds isJsSpace l

/-- `cleaned.split(/\s+/).filter(word => word.length > 0)`: the maximal
whitespace-free tokens of the string. -/
def splitWordsAux (acc : List Char) : List Char → List (List Char)
  | [] => if acc.isEmpty then [] else [acc.reverse]
  | c :: cs =>
    if isJsSpace c then
      if acc.isEmpty then splitWordsAux [] cs
      else acc.reverse :: splitWordsAux [] cs
    else splitWordsAux (c :: acc) cs

def splitWords (l : List Char) : List (List Char) := splitWordsAux [] l

/-- `word.charAt(0).toUpperCase() + word.slice(1).toLowerCase()`. -/
def standardTitleCase (w : List Char) : List Char :=
  match w with
  | [] => []
  | c :: cs => jsToUpper c :: cs.map jsToLower

/-- The word-casing decision of `cleanAndTitleCase` (lines 145-162 of
the importer): short all-caps words are kept (acronym heuristic), words with
mixed case that are not already in standard title case are kept verbatim, and
every other word is put into standard title case. -/
def titleCaseWord (w : List Char) : List Char :=
  if 2 ≤ w.length ∧ w.length ≤ 4 ∧ w = w.map jsToUpper then w
  else if w ≠ w.map jsToUpper ∧ w ≠ w.map jsToLower ∧ w ≠ standardTitleCase w then w
  else standardTitleCase w

/-- `cleanAndTitleCase` from `import-project.ts`: capture and strip a trailing
punctuation run, delete the remaining non-alphanumeric non-space characters,
split into words, apply `titleCaseWord` to each word, rejoin with single
spaces, and re-append the captured punctuation. -/
def cleanAndTitleCase (s : List Char) : List Char :=
  let bp := splitTrailingPunct s
  let cleaned := bp.1.filter (fun c => isAsciiAlnum c || isJsSpace c)
  List.intercalate ([' ']) ((splitWords cleaned).map titleCaseWord) ++ bp.2

/-- `str.split('-')`, keeping empty segments (accumulator is reversed). -/
def splitOnDashAux (acc : List Char) : List Char → List (List Char)
  | [] => [acc.reverse]
  | c :: cs =>
    if c.toNat = 45 then acc.reverse :: splitOnDashAux [] cs
    else splitOnDashAux (c :: acc) cs

/-- `toTitleCase` from `import-project.ts`: split on hyphens, uppercase each
segment's first character (the rest is kept as is), join with spaces. -/
def toTitleCase (s : List Char) : List Char :=
  List.intercalate ([' '])
    ((splitOnDashAux [] s).map (fun w =>
      match w with
      | [] => []
      | c :: cs => jsToUpper c :: cs))

/-- The two supported source kinds (`'tsx' | 'html'`; the spec calls them
`markup-component` and `plain-markup`). -/
inductive FileType where
  | tsx
  | html
deriving DecidableEq

/-- Case-insensitive character comparison, the `i` flag of the source's
regular expressions (ASCII). -/
def ciEq (a b : Char) : Bool := jsToLower a = jsToLower b

/-- Match a literal pattern case-insensitively at the head of the input,
returning the rest of the input on success. -/
def matchLit (pat l : List Char) : Option (List Char) :=
  match pat, l with
  | [], rest => some rest
  | _ :: _, [] => none
  | p :: ps, c :: cs => if ciEq p c then matchLit ps cs else none

/-- The leftmost-match loop of `String.prototype.match`: try the compiled
pattern at every start position, left to right. -/
def scanFirst (tryAt : List Char → Option (List Char)) : List Char → Option (List Char)
  | [] => tryAt []
  | c :: cs => (tryAt (c :: cs)).orElse (fun _ => scanFirst tryAt cs)

/-- One attempt of `<h1[^>]*>([^<]+)<\/h1>` (flag `i`) at a fixed position:
literal `<h1`, a maximal run of non-`>` characters, `>`, a non-empty maximal
run of non-`<` characters (the group), then literal `</h1>`. -/
def tryH1At (l : List Char) : Option (List Char) :=
  match matchLit (("<h1").data) l with
  | none => none
  | some r1 =>
    match r1.dropWhile (fun c => !(c.toNat = 62)) with
    | [] => none
    | c :: r2 =>
      if c.toNat = 62 then
        let grp := r2.takeWhile (fun c => !(c.toNat = 60))
        if grp.isEmpty then none
        else
          match matchLit (("</h1>").data) (r2.drop grp.length) with
          | some _ => some grp
          | none => none
      else none

/-- One attempt of `<title>([^<]+)<\/title>` (flag `i`) at a fixed position. -/
def tryTitleTagAt (l : List Char) : Option (List Char) :=
  match matchLit (("<title>").data) l with
  | none => none
  | some r1 =>
    let grp := r1.takeWhile (fun c => !(c.toNat = 60))
    if grp.isEmpty then none
    else
      match matchLit (("</title>").data) (r1.drop grp.length) with
      | some _ => some grp
      | none => none

/-- Quote characters of the key-value patterns: `'` or `"`. -/
def isQuote (c : Char) : Bool := c.toNat = 39 || c.toNat = 34

/-- One attempt of `KEY\s*['"]([^'"]+)['"]` (flag `i`) at a fixed position,
for `KEY` one of `title:`, `name:`, `description:`, `subtitle:`. -/
def tryKVAt (key : List Char) (l : List Char) : Option (List Char) :=
  match matchLit key l with
  | none => none
  | some r1 =>
    match r1.dropWhile isJsSpace with
    | [] => none
    | q :: r2 =>
      if isQuote q then
        let grp := r2.takeWhile (fun c => !isQuote c)
        if grp.isEmpty then none
        else
          match r2.drop grp.length with
          | q2 :: _ => if isQuote q2 then some grp else none
          | [] => none
      else none

/-- One attempt of `<div class="CLS"[^>]*>\s*([^<]+)\s*<\/div>` (flag `i`) at
a fixed position, `lit` being the literal `<div class="CLS"`.  The run `R` of
non-`<` characters after the `>` absorbs both `\s*` contexts: the group is `R`
without its leading whitespace, except that when `R` is pure whitespace the
greedy `\s*` backtracks by one character and the group is the last character
of `R`. -/
def tryDivAt (lit : List Char) (l : List Char) : Option (List Char) :=
  match matchLit lit l with
  | none => none
  | some r1 =>
    match r1.dropWhile (fun c => !(c.toNat = 62)) with
    | [] => none
    | c :: r2 =>
      if c.toNat = 62 then
        let r := r2.takeWhile (fun c => !(c.toNat = 60))
        if r.isEmpty then none
        else
          match matchLit (("</div>").data) (r2.drop r.length) with
          | none => none
          | some _ =>
            let grp := r.dropWhile isJsSpace
            if grp.isEmpty then
              match r.getLast? with
              | some lastc => some [lastc]
              | none => none
            else some grp
      else none

/-- One attempt of
`<meta\s+name=["']description["']\s+content=["']([^"']+)["']` (flag `i`) at a
fixed position. -/
def tryMetaAt (l : List Char) : Option (List Char) :=
  match matchLit (("<meta").data) l with
  | none => none
  | some r1 =>
    let ws1 := r1.takeWhile isJsSpace
    if ws1.isEmpty then none
    else
      match matchLit (("name=").data) (r1.drop ws1.length) with
      | none => none
      | some r2 =>
        match r2 with
        | [] => none
        | q1 :: r3 =>
          if isQuote q1 then
            match matchLit (("description").data) r3 with
            | none => none
            | some r4 =>
              match r4 with
              | [] => none
              | q2 :: r5 =>
                if isQuote q2 then
                  let ws2 := r5.takeWhile isJsSpace
                  if ws2.isEmpty then none
                  else
                    match matchLit (("content=").data) (r5.drop ws2.length) with
                    | none => none
                    | some r6 =>
                      match r6 with
                      | [] => none
                      | q3 :: r7 =>
                        if isQuote q3 then
                          let grp := r7.takeWhile (fun c => !isQuote c)
                          if grp.isEmpty then none
                          else
                            match r7.drop grp.length with
                            | q4 :: _ => if isQuote q4 then some grp else none
                            | [] => none
                        else none
                else none
          else none

/-- `headline.replace(/^[^:]+:\s*/, '')`: strip a non-empty leading run of
non-colon characters, the colon, and any following whitespace; if the string
starts with a colon or contains none, it is returned unchanged. -/
def stripLabelColon (l : List Char) : List Char :=
  let pre := l.takeWhile (fun c => !(c.toNat = 58))
  if pre.isEmpty then l
  else
    match l.drop pre.length with
    | c :: rest => if c.toNat = 58 then rest.dropWhile isJsSpace else l
    | [] => l

/-- `extractTitleFromContent` from `import-project.ts` (lines 168-199): first
an `h1` element regardless of kind, then — for HTML only — a `<title>`
element, then a `title:` quoted literal, then a `name:` quoted literal; every
candidate is trimmed and passed through `cleanAndTitleCase`. -/
def extractTitleFromContent (content : List Char) (ty : FileType) : Option (List Char) :=
  match scanFirst tryH1At content with
  | some g => some (cleanAndTitleCase (jsTrim g))
  | none =>
    match (if ty = FileType.html then scanFirst tryTitleTagAt content else none) with
    | some g => some (cleanAndTitleCase (jsTrim g))
    | none =>
      match scanFirst (tryKVAt (("title:").data)) content with
      | some g => some (cleanAndTitleCase (jsTrim g))
      | none =>
        match scanFirst (tryKVAt (("name:").data)) content with
        | some g => some (cleanAndTitleCase (jsTrim g))
        | none => none

/-- `extractDescriptionFromContent` from `import-project.ts` (lines 201-240):
a `subheadline` div, then a `headline` div with a leading `label:` prefix
stripped, then a `meta` description, then `description:` and `subtitle:`
quoted literals.  The `type` parameter is taken but never consulted, exactly
as in the source. -/
def extractDescriptionFromContent (content : List Char) (_ty : FileType) :
    Option (List Char) :=
  match scanFirst (tryDivAt (("<div class=\"subheadline\"").data)) content with
  | some g => some (jsTrim g)
  | none =>
    match scanFirst (tryDivAt (("<div class=\"headline\"").data)) content with
    | some g => some (stripLabelColon (jsTrim g))
    | none =>
      match scanFirst tryMetaAt content with
      | some g => some (jsTrim g)
      | none =>
        match scanFirst (tryKVAt (("description:").data)) content with
        | some g => some (jsTrim g)
        | none =>
          match scanFirst (tryKVAt (("subtitle:").data)) content with
          | some g => some (jsTrim g)
          | none => none

/-- The persisted `project.json` record (`interface ProjectMetadata`). -/
structure ProjectMetadata where
  name : List Char
  title : List Char
  description : List Char
  type : FileType
deriving DecidableEq

/-- Lines 349-371 of `import-project.ts`: create or update `project.json`.
With an existing record the spread `{ ...existing, name, type }` keeps
`title` and `description` and overwrites `name` and `type`; without one the
record is built from the derived values, the description defaulting to
`Interactive TITLE` when the extracted description is `null` or empty
(JS `extractedDescription || ...`). -/
def mergeMetadata (existing : Option ProjectMetadata) (derivedName derivedTitle : List Char)
    (derivedDescription : Option (List Char)) (kind : FileType) : ProjectMetadata :=
  match existing with
  | some ex => ⟨derivedName, ex.title, ex.description, kind⟩
  | none =>
    ⟨derivedName, derivedTitle,
      (match derivedDescription with
       | some d => if d.isEmpty then ("Interactive ").data ++ derivedTitle else d
       | none => ("Interactive ").data ++ derivedTitle),
      kind⟩

/-- The values a single `processImport` run computes and persists for one
source file (its pure content: project name, display title, metadata). -/
structure ImportOutcome where
  projectName : List Char
  projectTitle : List Char
  metadata : ProjectMetadata
deriving DecidableEq

/-- The pure core of `processImport` (lines 251-377 of `import-project.ts`):
given the file content, its kind, the optional `IMPORT_TITLE` override, the
filename-derived default project name, and the previously persisted record if
any, compute the project name, the display title and the merged metadata.
The override and the extracted title are tested with JS truthiness (`null`
and the empty string both fall through). -/
def processImportPure (content : List Char) (ty : FileType)
    (titleOverride : Option (List Char)) (defaultProjectName : List Char)
    (existing : Option ProjectMetadata) : ImportOutcome :=
  let extractedTitle := extractTitleFromContent content ty
  let extractedDescription := extractDescriptionFromContent content ty
  let fromExtracted : List Char × List Char :=
    match extractedTitle with
    | some t =>
      if t.isEmpty then (defaultProjectName, toTitleCase defaultProjectName)
      else (slugify t, t)
    | none => (defaultProjectName, toTitleCase defaultProjectName)
  let nt : List Char × List Char :=
    match titleOverride with
    | some o => if o.isEmpty then fromExtracted else (slugify o, o)
    | none => fromExtracted
  ⟨nt.1, nt.2, mergeMetadata existing nt.1 nt.2 extractedDescription ty⟩

end GeneratedDocs

namespace GeneratedDocs

example : slugify (("Cool Viz").data) = ("cool-viz").data := by decide
example : slugify (("  --Hello,  World!-- ").data) = ("hello-world").data := by decide
example : slugify (("a_b").data) = ("a_b").data := by decide
example : matchesSlugRegex (("cool-viz").data) = true := by decide
example : matchesSlugRegex (("a_b").data) = false := by decide
example : matchesSlugRegexU (("a_b").data) = true := by decide
example : matchesSlugRegex (("-a").data) = false := by decide
example : matchesSlugRegex (("a-").data) = false := by decide
example : matchesSlugRegex (("a--b").data) = false := by decide

example : cleanAndTitleCase (("RADICAL PROGRAMMING TIMELINE!").data) =
    ("Radical Programming Timeline!").data := by decide
example : cleanAndTitleCase (("API Guide").data) = ("API Guide").data := by decide
example : cleanAndTitleCase (("iOS Tips").data) = ("iOS Tips").data := by decide
example : cleanAndTitleCase (("⚡!").data) = ("!").data := by decide
example : cleanAndTitleCase (("hello  world")).data = ("Hello World").data := by decide
example : toTitleCase (("cool-viz").data) = ("Cool Viz").data := by decide
example : toTitleCase (("a--b").data) = ("A  B").data := by decide
example : jsTrim (("  a b ").data) = ("a b").data := by decide

example : extractTitleFromContent (("<h1>Cool Viz</h1>").data) FileType.tsx =
    some (("Cool Viz").data) := by decide
example : extractTitleFromContent (("<h1 class=\"x\">RADICAL PROGRAMMING TIMELINE!</h1>").data)
    FileType.tsx = some (("Radical Programming Timeline!").data) := by decide
example : extractTitleFromContent (("<title>Doc</title>").data) FileType.tsx = none := by decide
example : extractTitleFromContent (("<title>Doc</title>").data) FileType.html =
    some (("Doc").data) := by decide
example : extractTitleFromContent (("const title: 'cool viz'").data) FileType.tsx =
    some (("Cool Viz").data) := by decide
example : extractTitleFromContent (("name: \"beta\"").data) FileType.tsx =
    some (("Beta").data) := by decide
example : extractTitleFromContent (("nothing here").data) FileType.tsx = none := by decide
example : extractTitleFromContent (("<h1></h1>name: 'beta'").data) FileType.tsx =
    some (("Beta").data) := by decide

example : extractDescriptionFromContent
    (("<div class=\"subheadline\"> Neat tool </div>").data) FileType.html =
    some (("Neat tool").data) := by decide
example : extractDescriptionFromContent
    (("<div class=\"headline\">BREAKING: Big news</div>").data) FileType.html =
    some (("Big news").data) := by decide
example : extractDescriptionFromContent
    (("<meta name=\"description\" content=\"A page\">").data) FileType.html =
    some (("A page").data) := by decide
example : extractDescriptionFromContent (("description: 'd1' subtitle: 's1'").data)
    FileType.tsx = some (("d1").data) := by decide
example : extractDescriptionFromContent (("subtitle: 's1'").data) FileType.tsx =
    some (("s1").data) := by decide
example : extractDescriptionFromContent (("plain").data) FileType.tsx = none := by decide
example : extractDescriptionFromContent
    (("<div class=\"subheadline\">   </div>").data) FileType.html = some ([]) := by decide

example : processImportPure (("<h1>⚡!</h1>").data) FileType.tsx none (("doc").data) none =
    ⟨[], ("!").data, ⟨[], ("!").data, ("Interactive !").data, FileType.tsx⟩⟩ := by decide

/-- C2: merging an existing persisted record with freshly derived name and
kind overwrites only the `name` and `type` fields; `title` and `description`
of the result are those of the existing record.  In particular, merging
`{name:"old", title:"Old Title", description:"Old desc", type:"html"}` with
derived name `new-slug` and kind `html` yields
`{name:"new-slug", title:"Old Title", description:"Old desc", type:"html"}`. -/
theorem C2_merge_preserves_title_description (ex : ProjectMetadata)
    (n t : List Char) (d : Option (List Char)) (k : FileType) :
    (mergeMetadata (some ex) n t d k).name = n ∧
    (mergeMetadata (some ex) n t d k).type = k ∧
    (mergeMetadata (some ex) n t d k).title = ex.title ∧
    (mergeMetadata (some ex) n t d k).description = ex.description ∧
    mergeMetadata (some ⟨("old").data, ("Old Title").data, ("Old desc").data, FileType.html⟩)
        (("new-slug").data) (("New Title").data) none FileType.html =
      ⟨("new-slug").data, ("Old Title").data, ("Old desc").data, FileType.html⟩ := by
  refine ⟨rfl, rfl, rfl, rfl, by decide⟩

/-- C3: the word-casing decision of the title-cleaning transform: a word of
length 2-4 that is already all-uppercase is preserved as-is; a word with both
upper- and lowercase letters that differs from its standard title-case form
is preserved verbatim; every other word is converted to standard title case.
`API Guide` and `iOS Tips` go through the transform unchanged. -/
theorem C3_word_casing_rules :
    (∀ w : List Char, 2 ≤ w.length → w.length ≤ 4 → w = w.map jsToUpper →
      titleCaseWord w = w) ∧
    (∀ w : List Char, w ≠ w.map jsToUpper → w ≠ w.map jsToLower →
      w ≠ standardTitleCase w → titleCaseWord w = w) ∧
    (∀ w : List Char, ¬(2 ≤ w.length ∧ w.length ≤ 4 ∧ w = w.map jsToUpper) →
      ¬(w ≠ w.map jsToUpper ∧ w ≠ w.map jsToLower ∧ w ≠ standardTitleCase w) →
      titleCaseWord w = standardTitleCase w) ∧
    cleanAndTitleCase (("API Guide").data) = ("API Guide").data ∧
    cleanAndTitleCase (("iOS Tips").data) = ("iOS Tips").data := by
  refine ⟨?_, ?_, ?_, by decide, by decide⟩
  · intro w h1 h2 h3
    unfold titleCaseWord
    rw [if_pos ⟨h1, h2, h3⟩]
  · intro w h1 h2 h3
    have hA : ¬(2 ≤ w.length ∧ w.length ≤ 4 ∧ w = w.map jsToUpper) := by
      rintro ⟨-, -, h⟩
      exact h1 h
    unfold titleCaseWord
    rw [if_neg hA, if_pos ⟨h1, h2, h3⟩]
  · intro w h1 h2
    unfold titleCaseWord
    rw [if_neg h1, if_neg h2]

/-- Witness for C3 at concrete words: `API` (short acronym), `iOS` (mixed
case), `hello` (ordinary word). -/
theorem C3_word_casing_rules_witness :
    titleCaseWord (("API").data) = ("API").data ∧
    titleCaseWord (("iOS").data) = ("iOS").data ∧
    titleCaseWord (("hello").data) = ("Hello").data :=
  ⟨C3_word_casing_rules.1 (("API").data) (by decide) (by decide) (by decide),
   C3_word_casing_rules.2.1 (("iOS").data) (by decide) (by decide) (by decide),
   Eq.trans (C3_word_casing_rules.2.2.1 (("hello").data) (by decide) (by decide))
     (by decide)⟩

/-- Counterexample to C7 as stated: with no existing record and a derived
description that is present but empty (`some []`, as produced for example by
a whitespace-only `subheadline` element), the code does not keep the present
description; JS `||` treats the empty string as falsy, so the result is the
synthesized default `Interactive TITLE`, which is not the empty string. -/
theorem C7_counterexample :
    (mergeMetadata none (("foo-bar").data) (("Foo Bar").data) (some [])
        FileType.html).description = ("Interactive Foo Bar").data ∧
    ("Interactive Foo Bar").data ≠ ([] : List Char) := by decide

/-- C7 amended: with no existing record the constructed metadata is
`{name, title, description, kind}` where the description is the derived one
if it is present and non-empty, and `Interactive TITLE` otherwise (JS `||`);
with derived name `foo-bar`, title `Foo Bar` and no description, the
description is `Interactive Foo Bar`. -/
theorem C7_merge_without_existing (n t : List Char) (d : Option (List Char)) (k : FileType) :
    (mergeMetadata none n t d k).name = n ∧
    (mergeMetadata none n t d k).title = t ∧
    (mergeMetadata none n t d k).type = k ∧
    ((d = none ∨ d = some []) →
      (mergeMetadata none n t d k).description = ("Interactive ").data ++ t) ∧
    (∀ s, d = some s → s ≠ [] → (mergeMetadata none n t d k).description = s) ∧
    mergeMetadata none (("foo-bar").data) (("Foo Bar").data) none FileType.html =
      ⟨("foo-bar").data, ("Foo Bar").data, ("Interactive Foo Bar").data, FileType.html⟩ := by
  refine ⟨rfl, rfl, rfl, ?_, ?_, by decide⟩
  · rintro (rfl | rfl) <;> rfl
  · rintro s rfl hs
    have : s.isEmpty = false := by
      cases s with
      | nil => exact absurd rfl hs
      | cons c cs => rfl
    simp [mergeMetadata, this]

/-- Witness for C7 amended: a present non-empty derived description is kept. -/
theorem C7_merge_without_existing_witness :
    (mergeMetadata none (("a").data) (("A").data) (some (("desc").data))
        FileType.tsx).description = ("desc").data :=
  (C7_merge_without_existing (("a").data) (("A").data) (some (("desc").data))
      FileType.tsx).2.2.2.2.1 (("desc").data) rfl (by decide)

/-- C10: a document whose first `h1` inner text is `⚡!` yields the extracted
title `!` (non-empty, pure punctuation); `slugify` maps `!` to the empty
string; and the importer proceeds with the empty string as project name —
the computed outcome records name `""` with no error signalled anywhere on
this path (the import step is total). -/
theorem C10_empty_slug_accepted :
    extractTitleFromContent (("<h1>⚡!</h1>").data) FileType.tsx = some (("!").data) ∧
    ("!").data ≠ ([] : List Char) ∧
    slugify (("!").data) = [] ∧
    processImportPure (("<h1>⚡!</h1>").data) FileType.tsx none (("doc").data) none =
      ⟨[], ("!").data, ⟨[], ("!").data, ("Interactive !").data, FileType.tsx⟩⟩ := by decide

/-- C8: when the caller supplies a non-empty manual title override, the
project's display title is the override and the project name is
`slugify(override)` no matter what the extraction rules would find, while the
merged metadata still receives the description extracted from the content:
the override bypasses title extraction only. -/
theorem C8_title_override (content : List Char) (ty : FileType)
    (o defaultName : List Char) (existing : Option ProjectMetadata) (ho : o ≠ []) :
    processImportPure content ty (some o) defaultName existing =
      ⟨slugify o, o,
        mergeMetadata existing (slugify o) o
          (extractDescriptionFromContent content ty) ty⟩ := by
  have hoe : o.isEmpty = false := by
    cases o with
    | nil => exact absurd rfl ho
    | cons c cs => rfl
  simp [processImportPure, hoe]

/-- Witness for C8: the override `My App` names the project `my-app` and
titles it `My App` even though the content's `h1` says `Zap`, and the
`subheadline` description `Neat tool` is still extracted and persisted. -/
theorem C8_title_override_witness :
    processImportPure (("<h1>Zap</h1><div class=\"subheadline\">Neat tool</div>").data)
      FileType.tsx (some (("My App").data)) (("x").data) none =
      ⟨("my-app").data, ("My App").data,
        ⟨("my-app").data, ("My App").data, ("Neat tool").data, FileType.tsx⟩⟩ :=
  Eq.trans
    (C8_title_override (("<h1>Zap</h1><div class=\"subheadline\">Neat tool</div>").data)
      FileType.tsx (("My App").data) (("x").data) none (by decide))
    (by decide)

/-! Helper lemmas about `takeWhile` and `dropWhile` heads, used by the
trailing-punctuation analysis and by the slug invariants. -/

theorem dropWhile_eq_self_of_head {p : Char → Bool} {l : List Char}
    (h : ∀ c, l.head? = some c → p c = false) : l.dropWhile p = l := by
  cases l with
  | nil => rfl
  | cons c cs =>
    have := h c rfl
    simp [List.dropWhile_cons, this]

theorem takeWhile_eq_nil_of_head {p : Char → Bool} {l : List Char}
    (h : ∀ c, l.head? = some c → p c = false) : l.takeWhile p = [] := by
  cases l with
  | nil => rfl
  | cons c cs =>
    have := h c rfl
    simp [List.takeWhile_cons, this]

theorem takeWhile_append_of_all {p : Char → Bool} {l1 : List Char} (l2 : List Char)
    (h : ∀ c ∈ l1, p c = true) : (l1 ++ l2).takeWhile p = l1 ++ l2.takeWhile p := by
  induction l1 with
  | nil => rfl
  | cons c cs ih =>
    have hc := h c (List.mem_cons_self c cs)
    simp only [List.cons_append, List.takeWhile_cons, hc, if_true]
    rw [ih (fun d hd => h d (List.mem_cons_of_mem c hd))]

theorem punct_not_space {c : Char} (h : isPunctChar c = true) : isJsSpace c = false := by
  simp only [isPunctChar, Bool.or_eq_true, decide_eq_true_eq] at h
  cases hB : isJsSpace c with
  | false => rfl
  | true =>
    exfalso
    simp only [isJsSpace, Bool.or_eq_true, decide_eq_true_eq] at hB
    omega

/-- `splitTrailingPunct` on a string that is a body (not ending in
punctuation or whitespace) followed by a non-empty punctuation run separates
exactly that body and that run. -/
theorem splitTrailingPunct_append {body punct : List Char} (hp : punct ≠ [])
    (hpc : ∀ c ∈ punct, isPunctChar c = true)
    (hb : ∀ c, body.getLast? = some c → isPunctChar c = false ∧ isJsSpace c = false) :
    splitTrailingPunct (body ++ punct) = (body, punct) := by
  have hrev : (body ++ punct).reverse = punct.reverse ++ body.reverse :=
    List.reverse_append body punct
  have hpr : punct.reverse ≠ [] := fun h => hp (List.reverse_eq_nil_iff.mp h)
  have hdrop : (punct.reverse ++ body.reverse).dropWhile isJsSpace =
      punct.reverse ++ body.reverse := by
    apply dropWhile_eq_self_of_head
    intro c hc
    obtain ⟨b, L, hbl⟩ := List.exists_cons_of_ne_nil hpr
    rw [hbl] at hc
    simp only [List.cons_append, List.head?_cons, Option.some.injEq] at hc
    have hbm : b ∈ punct := List.mem_reverse.mp (hbl ▸ List.mem_cons_self b L)
    rw [← hc]
    exact punct_not_space (hpc b hbm)
  have htake : (punct.reverse ++ body.reverse).takeWhile isPunctChar = punct.reverse := by
    rw [takeWhile_append_of_all body.reverse
      (fun c hc => hpc c (List.mem_reverse.mp hc))]
    rw [takeWhile_eq_nil_of_head, List.append_nil]
    intro c hc
    rw [List.head?_reverse] at hc
    exact (hb c hc).1
  have hne : (punct.reverse).isEmpty = false := by
    cases hprc : punct.reverse with
    | nil => exact absurd hprc hpr
    | cons b L => rfl
  simp only [splitTrailingPunct]
  rw [hrev, hdrop, htake]
  simp [hne, List.drop_left]

/-- `splitTrailingPunct` on a body with no trailing punctuation or
whitespace finds no match. -/
theorem splitTrailingPunct_body {body : List Char}
    (hb : ∀ c, body.getLast? = some c → isPunctChar c = false ∧ isJsSpace c = false) :
    splitTrailingPunct body = (body, []) := by
  have hdrop : body.reverse.dropWhile isJsSpace = body.reverse := by
    apply dropWhile_eq_self_of_head
    intro c hc
    rw [List.head?_reverse] at hc
    exact (hb c hc).2
  have htake : body.reverse.takeWhile isPunctChar = [] := by
    apply takeWhile_eq_nil_of_head
    intro c hc
    rw [List.head?_reverse] at hc
    exact (hb c hc).1
  simp only [splitTrailingPunct]
  rw [hdrop, htake]
  rfl

/-- C6: the title-cleaning transform captures a trailing punctuation run,
strips it before cleaning, and re-appends it verbatim to the cleaned result
(stated as an append law over bodies with no trailing punctuation or
whitespace); on `RADICAL PROGRAMMING TIMELINE!` it yields
`Radical Programming Timeline!` with the `!` preserved and every word
standard-title-cased. -/
theorem C6_trailing_punctuation (body punct : List Char) (hp : punct ≠ [])
    (hpc : ∀ c ∈ punct, isPunctChar c = true)
    (hb : ∀ c, body.getLast? = some c → isPunctChar c = false ∧ isJsSpace c = false) :
    cleanAndTitleCase (body ++ punct) = cleanAndTitleCase body ++ punct ∧
    cleanAndTitleCase (("RADICAL PROGRAMMING TIMELINE!").data) =
      ("Radical Programming Timeline!").data := by
  refine ⟨?_, by decide⟩
  unfold cleanAndTitleCase
  rw [splitTrailingPunct_append hp hpc hb, splitTrailingPunct_body hb]
  simp

/-- Witness for C6: stripping and re-appending `!?` around `hello world`. -/
theorem C6_trailing_punctuation_witness :
    cleanAndTitleCase (("hello world").data ++ ("!?").data) =
      cleanAndTitleCase (("hello world").data) ++ ("!?").data :=
  (C6_trailing_punctuation (("hello world").data) (("!?").data) (by decide)
    (by decide) (by decide)).1

/-- C4: title extraction applies an ordered, first-match-wins rule list —
`h1` (any kind), then the `<title>` element (HTML only), then a `title:`
quoted literal, then a `name:` quoted literal — a later rule being consulted
only when all earlier rules found nothing; when none match, the import falls
back to the filename-derived name and title.  The concrete conjuncts show the
priority and the kind gating on real inputs. -/
theorem C4_title_rule_priority :
    (∀ content ty g, scanFirst tryH1At content = some g →
      extractTitleFromContent content ty = some (cleanAndTitleCase (jsTrim g))) ∧
    (∀ content g, scanFirst tryH1At content = none →
      scanFirst tryTitleTagAt content = some g →
      extractTitleFromContent content FileType.html =
        some (cleanAndTitleCase (jsTrim g))) ∧
    (∀ content ty g, scanFirst tryH1At content = none →
      (if ty = FileType.html then scanFirst tryTitleTagAt content else none) = none →
      scanFirst (tryKVAt (("title:").data)) content = some g →
      extractTitleFromContent content ty = some (cleanAndTitleCase (jsTrim g))) ∧
    (∀ content ty g, scanFirst tryH1At content = none →
      (if ty = FileType.html then scanFirst tryTitleTagAt content else none) = none →
      scanFirst (tryKVAt (("title:").data)) content = none →
      scanFirst (tryKVAt (("name:").data)) content = some g →
      extractTitleFromContent content ty = some (cleanAndTitleCase (jsTrim g))) ∧
    (∀ content ty, scanFirst tryH1At content = none →
      (if ty = FileType.html then scanFirst tryTitleTagAt content else none) = none →
      scanFirst (tryKVAt (("title:").data)) content = none →
      scanFirst (tryKVAt (("name:").data)) content = none →
      extractTitleFromContent content ty = none) ∧
    (∀ content ty defaultName existing,
      extractTitleFromContent content ty = none →
      processImportPure content ty none defaultName existing =
        ⟨defaultName, toTitleCase defaultName,
          mergeMetadata existing defaultName (toTitleCase defaultName)
            (extractDescriptionFromContent content ty) ty⟩) ∧
    extractTitleFromContent (("<h1>Cool Viz</h1> title: 'other'").data) FileType.tsx =
      some (("Cool Viz").data) ∧
    extractTitleFromContent (("name: 'beta' and then title: 'alpha'").data) FileType.tsx =
      some (("Alpha").data) ∧
    extractTitleFromContent (("<title>Doc</title>").data) FileType.tsx = none ∧
    extractTitleFromContent (("<title>Doc</title>").data) FileType.html =
      some (("Doc").data) := by
  refine ⟨?_, ?_, ?_, ?_, ?_, ?_, by decide, by decide, by decide, by decide⟩
  · intro content ty g h
    simp [extractTitleFromContent, h]
  · intro content g h1 h2
    simp [extractTitleFromContent, h1, h2]
  · intro content ty g h1 h2 h3
    simp [extractTitleFromContent, h1, h2, h3]
  · intro content ty g h1 h2 h3 h4
    simp [extractTitleFromContent, h1, h2, h3, h4]
  · intro content ty h1 h2 h3 h4
    simp [extractTitleFromContent, h1, h2, h3, h4]
  · intro content ty defaultName existing h
    simp [processImportPure, h]

/-- Witness for C4: the `title:` literal rule fires for a `tsx` file once the
earlier rules find nothing. -/
theorem C4_title_rule_priority_witness :
    extractTitleFromContent (("x title: 'cool viz'").data) FileType.tsx =
      some (cleanAndTitleCase (jsTrim (("cool viz").data))) :=
  C4_title_rule_priority.2.2.1 (("x title: 'cool viz'").data) FileType.tsx
    (("cool viz").data) (by decide) (by decide) (by decide)

/-- C5: description extraction applies its rules in priority order —
`subheadline` div, then `headline` div with the leading `label:` prefix
stripped, then a `meta` description, then `description:` and `subtitle:`
quoted literals, otherwise absent — returning the first matching rule's
result.  The prefix-stripping law and concrete priority demonstrations are
included. -/
theorem C5_description_rule_priority :
    (∀ content ty g,
      scanFirst (tryDivAt (("<div class=\"subheadline\"").data)) content = some g →
      extractDescriptionFromContent content ty = some (jsTrim g)) ∧
    (∀ content ty g,
      scanFirst (tryDivAt (("<div class=\"subheadline\"").data)) content = none →
      scanFirst (tryDivAt (("<div class=\"headline\"").data)) content = some g →
      extractDescriptionFromContent content ty = some (stripLabelColon (jsTrim g))) ∧
    (∀ content ty g,
      scanFirst (tryDivAt (("<div class=\"subheadline\"").data)) content = none →
      scanFirst (tryDivAt (("<div class=\"headline\"").data)) content = none →
      scanFirst tryMetaAt content = some g →
      extractDescriptionFromContent content ty = some (jsTrim g)) ∧
    (∀ content ty g,
      scanFirst (tryDivAt (("<div class=\"subheadline\"").data)) content = none →
      scanFirst (tryDivAt (("<div class=\"headline\"").data)) content = none →
      scanFirst tryMetaAt content = none →
      scanFirst (tryKVAt (("description:").data)) content = some g →
      extractDescriptionFromContent content ty = some (jsTrim g)) ∧
    (∀ content ty g,
      scanFirst (tryDivAt (("<div class=\"subheadline\"").data)) content = none →
      scanFirst (tryDivAt (("<div class=\"headline\"").data)) content = none →
      scanFirst tryMetaAt content = none →
      scanFirst (tryKVAt (("description:").data)) content = none →
      scanFirst (tryKVAt (("subtitle:").data)) content = some g →
      extractDescriptionFromContent content ty = some (jsTrim g)) ∧
    (∀ content ty,
      scanFirst (tryDivAt (("<div class=\"subheadline\"").data)) content = none →
      scanFirst (tryDivAt (("<div class=\"headline\"").data)) content = none →
      scanFirst tryMetaAt content = none →
      scanFirst (tryKVAt (("description:").data)) content = none →
      scanFirst (tryKVAt (("subtitle:").data)) content = none →
      extractDescriptionFromContent content ty = none) ∧
    (∀ pre rest, pre ≠ [] → (∀ c ∈ pre, c.toNat ≠ 58) →
      stripLabelColon (pre ++ ':' :: rest) = rest.dropWhile isJsSpace) ∧
    extractDescriptionFromContent
      (("<div class=\"subheadline\">Sub</div><div class=\"headline\">T: Head</div>").data)
      FileType.html = some (("Sub").data) ∧
    extractDescriptionFromContent
      (("<div class=\"headline\">BREAKING: Big news</div>").data) FileType.html =
      some (("Big news").data) ∧
    extractDescriptionFromContent
      (("<meta name=\"description\" content=\"A page\"> subtitle: 'later'").data)
      FileType.html = some (("A page").data) ∧
    extractDescriptionFromContent (("description: 'd1' subtitle: 's1'").data)
      FileType.tsx = some (("d1").data) ∧
    extractDescriptionFromContent (("plain text").data) FileType.tsx = none := by
  refine ⟨?_, ?_, ?_, ?_, ?_, ?_, ?_,
    by decide, by decide, by decide, by decide, by decide⟩
  · intro content ty g h
    simp [extractDescriptionFromContent, h]
  · intro content ty g h1 h2
    simp [extractDescriptionFromContent, h1, h2]
  · intro content ty g h1 h2 h3
    simp [extractDescriptionFromContent, h1, h2, h3]
  · intro content ty g h1 h2 h3 h4
    simp [extractDescriptionFromContent, h1, h2, h3, h4]
  · intro content ty g h1 h2 h3 h4 h5
    simp [extractDescriptionFromContent, h1, h2, h3, h4, h5]
  · intro content ty h1 h2 h3 h4 h5
    simp [extractDescriptionFromContent, h1, h2, h3, h4, h5]
  · intro pre rest hne hcol
    have htake : (pre ++ ':' :: rest).takeWhile (fun c => !(c.toNat = 58)) = pre := by
      rw [takeWhile_append_of_all (':' :: rest)
        (fun c hc => by simp [hcol c hc])]
      rw [takeWhile_eq_nil_of_head, List.append_nil]
      intro c hc
      simp only [List.head?_cons, Option.some.injEq] at hc
      subst hc
      rfl
    have hpe : pre.isEmpty = false := by
      cases pre with
      | nil => exact absurd rfl hne
      | cons c cs => rfl
    simp only [stripLabelColon, htake, hpe]
    simp [List.drop_left]

/-- Witness for C5: the `headline` rule fires when no `subheadline` element
is present, with the label prefix stripped. -/
theorem C5_description_rule_priority_witness :
    extractDescriptionFromContent (("<div class=\"headline\">L: x</div>").data)
      FileType.tsx = some (stripLabelColon (jsTrim (("L: x").data))) :=
  C5_description_rule_priority.2.1 (("<div class=\"headline\">L: x</div>").data)
    FileType.tsx (("L: x").data) (by decide) (by decide)

/-! The `h1` rule ignores a heading with empty inner content: matching
`([^<]+)` requires at least one character, so `<h1></h1>` never matches, and
an entire leading `<h1></h1>` is transparent to every title rule. -/

theorem scanH1_empty_heading (rest : List Char) :
    scanFirst tryH1At ((['<', 'h', '1', '>', '<', '/', 'h', '1', '>'] : List Char) ++ rest) =
      scanFirst tryH1At rest := rfl

theorem scanTitleTag_empty_heading (rest : List Char) :
    scanFirst tryTitleTagAt ((['<', 'h', '1', '>', '<', '/', 'h', '1', '>'] : List Char) ++ rest) =
      scanFirst tryTitleTagAt rest := rfl

theorem scanTitleKV_empty_heading (rest : List Char) :
    scanFirst (tryKVAt (("title:").data))
        ((['<', 'h', '1', '>', '<', '/', 'h', '1', '>'] : List Char) ++ rest) =
      scanFirst (tryKVAt (("title:").data)) rest := rfl

theorem scanNameKV_empty_heading (rest : List Char) :
    scanFirst (tryKVAt (("name:").data))
        ((['<', 'h', '1', '>', '<', '/', 'h', '1', '>'] : List Char) ++ rest) =
      scanFirst (tryKVAt (("name:").data)) rest := rfl

/-- C9: an `h1` element with empty inner content is no match for the heading
rule, and title extraction falls through to the remaining rules exactly as if
the empty heading were absent; on a document with an empty first heading and
a later-rule match, the later rule's title is returned. -/
theorem C9_empty_heading_falls_through :
    (∀ rest ty, extractTitleFromContent ((("<h1></h1>").data) ++ rest) ty =
      extractTitleFromContent rest ty) ∧
    scanFirst tryH1At (("<h1></h1>").data) = none ∧
    extractTitleFromContent (("<h1></h1><title>Cool Viz</title>").data) FileType.html =
      some (("Cool Viz").data) ∧
    extractTitleFromContent (("<h1></h1> title: 'beta'").data) FileType.tsx =
      some (("Beta").data) := by
  refine ⟨?_, by decide, by decide, by decide⟩
  intro rest ty
  simp only [extractTitleFromContent]
  rw [scanH1_empty_heading rest, scanTitleTag_empty_heading rest,
    scanTitleKV_empty_heading rest, scanNameKV_empty_heading rest]

/-- Witness for C9: prepending an empty heading to a `name:` literal does not
change the extracted title. -/
theorem C9_empty_heading_falls_through_witness :
    extractTitleFromContent ((("<h1></h1>").data) ++ (("name: 'n1'").data))
      FileType.tsx = extractTitleFromContent (("name: 'n1'").data) FileType.tsx :=
  C9_empty_heading_falls_through.1 (("name: 'n1'").data) FileType.tsx

/-! Character-level facts about the ASCII case map and the slug character
classes, used in the analysis of `slugify`. -/

theorem jsToLower_spec (c : Char) :
    (65 ≤ c.toNat ∧ c.toNat ≤ 90 ∧ (jsToLower c).toNat = c.toNat + 32) ∨
    (¬(65 ≤ c.toNat ∧ c.toNat ≤ 90) ∧ jsToLower c = c) := by
  unfold jsToLower
  split
  next h =>
    left
    simp only [Bool.and_eq_true, decide_eq_true_eq] at h
    refine ⟨h.1, h.2, ?_⟩
    have hv : (c.toNat + 32).isValidChar := Or.inl (by omega)
    rw [Char.ofNat, dif_pos hv]
    rfl
  next h =>
    right
    simp only [Bool.and_eq_true, decide_eq_true_eq, not_and, not_le] at h
    exact ⟨fun hh => absurd (h hh.1) (not_lt.mpr hh.2), rfl⟩

theorem isSlugCharU_iff {c : Char} : isSlugCharU c = true ↔
    (97 ≤ c.toNat ∧ c.toNat ≤ 122) ∨ (48 ≤ c.toNat ∧ c.toNat ≤ 57) ∨ c.toNat = 95 := by
  simp [isSlugCharU, Bool.or_eq_true, Bool.and_eq_true, decide_eq_true_eq, or_assoc]

theorem isJsSpace_iff {c : Char} : isJsSpace c = true ↔
    c.toNat = 32 ∨ c.toNat = 9 ∨ c.toNat = 10 ∨ c.toNat = 13 ∨ c.toNat = 11 ∨ c.toNat = 12 := by
  simp [isJsSpace, Bool.or_eq_true, decide_eq_true_eq, or_assoc]

theorem isWordChar_iff {c : Char} : isWordChar c = true ↔
    (97 ≤ c.toNat ∧ c.toNat ≤ 122) ∨ (65 ≤ c.toNat ∧ c.toNat ≤ 90) ∨
    (48 ≤ c.toNat ∧ c.toNat ≤ 57) ∨ c.toNat = 95 := by
  simp [isWordChar, Bool.or_eq_true, Bool.and_eq_true, decide_eq_true_eq, or_assoc]

theorem isAsciiAlnum_iff {c : Char} : isAsciiAlnum c = true ↔
    (97 ≤ c.toNat ∧ c.toNat ≤ 122) ∨ (65 ≤ c.toNat ∧ c.toNat ≤ 90) ∨
    (48 ≤ c.toNat ∧ c.toNat ≤ 57) := by
  simp [isAsciiAlnum, Bool.or_eq_true, Bool.and_eq_true, decide_eq_true_eq, or_assoc]

theorem isDash_iff {c : Char} : isDash c = true ↔ c.toNat = 45 := by
  simp [isDash]

theorem keepSlugChar_iff {c : Char} : keepSlugChar c = true ↔
    isWordChar c = true ∨ isJsSpace c = true ∨ isDash c = true := by
  simp [keepSlugChar, or_assoc]

theorem isDashOrSpace_iff {c : Char} : isDashOrSpace c = true ↔
    isDash c = true ∨ isJsSpace c = true := by
  simp [isDashOrSpace]

theorem slugU_not_space {c : Char} (h : isSlugCharU c = true) : isJsSpace c = false := by
  rw [isSlugCharU_iff] at h
  rw [Bool.eq_false_iff, Ne, isJsSpace_iff]
  omega

theorem slugU_not_dash {c : Char} (h : isSlugCharU c = true) : isDash c = false := by
  rw [isSlugCharU_iff] at h
  rw [Bool.eq_false_iff, Ne, isDash_iff]
  omega

theorem slugU_not_dashspace {c : Char} (h : isSlugCharU c = true) :
    isDashOrSpace c = false := by
  rw [Bool.eq_false_iff, Ne, isDashOrSpace_iff]
  rintro (hd | hs)
  · exact absurd hd (by rw [slugU_not_dash h]; simp)
  · exact absurd hs (by rw [slugU_not_space h]; simp)

theorem slugU_word {c : Char} (h : isSlugCharU c = true) : isWordChar c = true := by
  rw [isSlugCharU_iff] at h
  rw [isWordChar_iff]
  omega

theorem slugU_lower_id {c : Char} (h : isSlugCharU c = true) : jsToLower c = c := by
  rw [isSlugCharU_iff] at h
  rcases jsToLower_spec c with ⟨h1, h2, _⟩ | ⟨_, h2⟩
  · exact absurd (by omega : (97 ≤ c.toNat ∧ c.toNat ≤ 122) ∨
      (48 ≤ c.toNat ∧ c.toNat ≤ 57) ∨ c.toNat = 95 → False) (by exact fun f => f h)
  · exact h2

theorem dash_lower_id {c : Char} (h : c.toNat = 45) : jsToLower c = c := by
  rcases jsToLower_spec c with ⟨h1, _, _⟩ | ⟨_, h2⟩
  · omega
  · exact h2

theorem keep_lower_class (c : Char) (h : keepSlugChar (jsToLower c) = true) :
    isSlugCharU (jsToLower c) = true ∨ isJsSpace (jsToLower c) = true ∨
    isDash (jsToLower c) = true := by
  rw [keepSlugChar_iff] at h
  rcases h with hw | hs | hd
  · left
    have hnu : ¬(65 ≤ (jsToLower c).toNat ∧ (jsToLower c).toNat ≤ 90) := by
      rcases jsToLower_spec c with ⟨h1, h2, h3⟩ | ⟨h1, h2⟩
      · rw [h3]; omega
      · rw [h2]; exact h1
    rw [isWordChar_iff] at hw
    rw [isSlugCharU_iff]
    omega
  · right; left; exact hs
  · right; right; exact hd

theorem alnum_lower_slug (c : Char) (h : isAsciiAlnum c = true) :
    isSlugCharU (jsToLower c) = true ∧ keepSlugChar (jsToLower c) = true := by
  rw [isAsciiAlnum_iff] at h
  have hs : isSlugCharU (jsToLower c) = true := by
    rcases jsToLower_spec c with ⟨h1, h2, h3⟩ | ⟨h1, h2⟩
    · rw [isSlugCharU_iff, h3]; omega
    · rw [isSlugCharU_iff, h2]; omega
  exact ⟨hs, keepSlugChar_iff.mpr (Or.inl (slugU_word hs))⟩

/-! Structural lemmas about `collapseRunsAux`, `dropWhile` and `trimEnds`. -/

theorem mem_collapseRunsAux {p : Char → Bool} {r : Char} :
    ∀ (l : List Char) (b : Bool) (c : Char), c ∈ collapseRunsAux p r b l →
      c = r ∨ (c ∈ l ∧ p c = false) := by
  intro l
  induction l with
  | nil =>
    intro b c h
    simp [collapseRunsAux] at h
  | cons d ds ih =>
    intro b c h
    by_cases hd : p d = true
    · cases b with
      | true =>
        simp only [collapseRunsAux, hd, if_true] at h
        rcases ih true c h with hr | ⟨hm, hp⟩
        · exact Or.inl hr
        · exact Or.inr ⟨List.mem_cons_of_mem d hm, hp⟩
      | false =>
        simp only [collapseRunsAux, hd, if_true] at h
        rcases List.mem_cons.mp h with hr | h2
        · exact Or.inl hr
        · rcases ih true c h2 with hr | ⟨hm, hp⟩
          · exact Or.inl hr
          · exact Or.inr ⟨List.mem_cons_of_mem d hm, hp⟩
    · have hd2 : p d = false := Bool.eq_false_iff.mpr hd
      simp only [collapseRunsAux, hd2, Bool.false_eq_true, if_false] at h
      rcases List.mem_cons.mp h with hr | h2
      · exact Or.inr ⟨hr ▸ List.mem_cons_self d ds, hr ▸ hd2⟩
      · rcases ih false c h2 with hr | ⟨hm, hp⟩
        · exact Or.inl hr
        · exact Or.inr ⟨List.mem_cons_of_mem d hm, hp⟩

theorem mem_collapseRunsAux_of_mem {p : Char → Bool} {r : Char} :
    ∀ (l : List Char) (b : Bool) (c : Char), c ∈ l → p c = false →
      c ∈ collapseRunsAux p r b l := by
  intro l
  induction l with
  | nil =>
    intro b c h
    simp at h
  | cons d ds ih =>
    intro b c h hp
    rcases List.mem_cons.mp h with rfl | h2
    · simp only [collapseRunsAux, hp, Bool.false_eq_true, if_false]
      exact List.mem_cons_self c _
    · by_cases hd : p d = true
      · cases b with
        | true =>
          simp only [collapseRunsAux, hd, if_true]
          exact ih true c h2 hp
        | false =>
          simp only [collapseRunsAux, hd, if_true]
          exact List.mem_cons_of_mem r (ih true c h2 hp)
      · have hd2 : p d = false := Bool.eq_false_iff.mpr hd
        simp only [collapseRunsAux, hd2, Bool.false_eq_true, if_false]
        exact List.mem_cons_of_mem d (ih false c h2 hp)

theorem collapseRunsAux_id {p : Char → Bool} {r : Char} :
    ∀ (l : List Char) (b : Bool), (∀ c ∈ l, p c = false) →
      collapseRunsAux p r b l = l := by
  intro l
  induction l with
  | nil => intro b _; rfl
  | cons d ds ih =>
    intro b h
    have hd : p d = false := h d (List.mem_cons_self d ds)
    simp only [collapseRunsAux, hd, Bool.false_eq_true, if_false]
    rw [ih false (fun c hc => h c (List.mem_cons_of_mem d hc))]

/-- Adjacent hyphens are forbidden: the relation whose `Chain'` closure says
a list has no `--` substring. -/
def DashRel (a b : Char) : Prop := ¬(a.toNat = 45 ∧ b.toNat = 45)

theorem dashRel_symm {a b : Char} (h : DashRel a b) : DashRel b a :=
  fun ⟨x, y⟩ => h ⟨y, x⟩

theorem char_eq_dash {d : Char} (h : d.toNat = 45) : d = '-' :=
  Char.ext (UInt32.ext h)

theorem collapse_dash_chain :
    ∀ l : List Char,
      List.Chain' DashRel (collapseRunsAux isDash '-' true l) ∧
      List.Chain' DashRel (collapseRunsAux isDash '-' false l) ∧
      (∀ c, (collapseRunsAux isDash '-' true l).head? = some c → isDash c = false) := by
  intro l
  induction l with
  | nil => exact ⟨List.chain'_nil, List.chain'_nil, fun c h => by simp [collapseRunsAux] at h⟩
  | cons d ds ih =>
    by_cases hd : isDash d = true
    · have e1 : collapseRunsAux isDash '-' true (d :: ds) =
          collapseRunsAux isDash '-' true ds := by
        rw [collapseRunsAux, if_pos hd]
        rfl
      have e2 : collapseRunsAux isDash '-' false (d :: ds) =
          '-' :: collapseRunsAux isDash '-' true ds := by
        rw [collapseRunsAux, if_pos hd]
        rfl
      refine ⟨e1 ▸ ih.1, ?_, fun c h => ih.2.2 c (e1 ▸ h)⟩
      rw [e2, List.chain'_cons']
      refine ⟨?_, ih.1⟩
      intro y hy
      have hyd : isDash y = false := ih.2.2 y (Option.mem_def.mp hy)
      intro hcon
      have ht : isDash y = true := by simp [isDash, hcon.2]
      rw [hyd] at ht
      exact Bool.false_ne_true ht
    · have hd2 : isDash d = false := Bool.eq_false_iff.mpr hd
      have e1 : collapseRunsAux isDash '-' true (d :: ds) =
          d :: collapseRunsAux isDash '-' false ds := by
        rw [collapseRunsAux, if_neg (by simp [hd2])]
      have e2 : collapseRunsAux isDash '-' false (d :: ds) =
          d :: collapseRunsAux isDash '-' false ds := by
        rw [collapseRunsAux, if_neg (by simp [hd2])]
      have hchain : List.Chain' DashRel (d :: collapseRunsAux isDash '-' false ds) := by
        rw [List.chain'_cons']
        refine ⟨?_, ih.2.1⟩
        intro y _
        intro hcon
        have ht : isDash d = true := by simp [isDash, hcon.1]
        rw [hd2] at ht
        exact Bool.false_ne_true ht
      refine ⟨e1 ▸ hchain, e2 ▸ hchain, ?_⟩
      intro c h
      rw [e1] at h
      simp only [List.head?_cons, Option.some.injEq] at h
      exact h ▸ hd2

theorem collapse_dash_id :
    ∀ l : List Char, List.Chain' DashRel l →
      collapseRunsAux isDash '-' false l = l ∧
      ((∀ c, l.head? = some c → isDash c = false) →
        collapseRunsAux isDash '-' true l = l) := by
  intro l
  induction l with
  | nil => exact fun _ => ⟨rfl, fun _ => rfl⟩
  | cons d ds ih =>
    intro hchain
    have hds : List.Chain' DashRel ds := (List.chain'_cons'.mp hchain).2
    by_cases hd : isDash d = true
    · have hhead : ∀ c, ds.head? = some c → isDash c = false := by
        intro c hc
        have hrel := (List.chain'_cons'.mp hchain).1 c (Option.mem_def.mpr hc)
        cases hB : isDash c
        · rfl
        · exfalso
          apply hrel
          constructor
          · simpa [isDash] using hd
          · simpa [isDash] using hB
      have htail : collapseRunsAux isDash '-' true ds = ds := (ih hds).2 hhead
      constructor
      · have hdd : d = '-' := char_eq_dash (by simpa [isDash] using hd)
        rw [collapseRunsAux, if_pos hd, htail, hdd]
        rfl
      · intro hh
        exact absurd (hh d rfl) (by simp [hd])
    · have hd2 : isDash d = false := Bool.eq_false_iff.mpr hd
      have htail : collapseRunsAux isDash '-' false ds = ds := (ih hds).1
      constructor
      · rw [collapseRunsAux, if_neg (by simp [hd2]), htail]
      · intro _
        rw [collapseRunsAux, if_neg (by simp [hd2]), htail]

theorem chain'_dropWhile {R : Char → Char → Prop} {p : Char → Bool} :
    ∀ l : List Char, List.Chain' R l → List.Chain' R (l.dropWhile p) := by
  intro l
  induction l with
  | nil => exact fun h => h
  | cons d ds ih =>
    intro h
    by_cases hd : p d = true
    · rw [List.dropWhile_cons_of_pos hd]
      exact ih (List.chain'_cons'.mp h).2
    · rw [List.dropWhile_cons_of_neg (by simpa using hd)]
      exact h

theorem chain'_reverse_dashRel {l : List Char} (h : List.Chain' DashRel l) :
    List.Chain' DashRel l.reverse := by
  rw [List.chain'_reverse]
  exact h.imp (fun a b hab => dashRel_symm hab)

theorem mem_of_mem_dropWhile {p : Char → Bool} :
    ∀ (l : List Char) (c : Char), c ∈ l.dropWhile p → c ∈ l := by
  intro l
  induction l with
  | nil => intro c h; exact h
  | cons d ds ih =>
    intro c h
    by_cases hd : p d = true
    · rw [List.dropWhile_cons_of_pos hd] at h
      exact List.mem_cons_of_mem d (ih c h)
    · rw [List.dropWhile_cons_of_neg (by simpa using hd)] at h
      exact h

theorem mem_dropWhile_of_mem {p : Char → Bool} :
    ∀ (l : List Char) (c : Char), c ∈ l → p c = false → c ∈ l.dropWhile p := by
  intro l
  induction l with
  | nil => intro c h _; exact h
  | cons d ds ih =>
    intro c h hp
    by_cases hd : p d = true
    · rw [List.dropWhile_cons_of_pos hd]
      rcases List.mem_cons.mp h with rfl | h2
      · rw [hp] at hd
        exact absurd hd (by simp)
      · exact ih c h2 hp
    · rw [List.dropWhile_cons_of_neg (by simpa using hd)]
      exact h

theorem head_dropWhile_false {p : Char → Bool} :
    ∀ (l : List Char) (c : Char), (l.dropWhile p).head? = some c → p c = false := by
  intro l
  induction l with
  | nil => intro c h; simp at h
  | cons d ds ih =>
    intro c h
    by_cases hd : p d = true
    · rw [List.dropWhile_cons_of_pos hd] at h
      exact ih c h
    · rw [List.dropWhile_cons_of_neg (by simpa using hd)] at h
      simp only [List.head?_cons, Option.some.injEq] at h
      exact h ▸ Bool.eq_false_iff.mpr hd

theorem getLast_dropWhile_eq {p : Char → Bool} :
    ∀ l : List Char, l.dropWhile p ≠ [] → (l.dropWhile p).getLast? = l.getLast? := by
  intro l
  induction l with
  | nil => intro h; rfl
  | cons d ds ih =>
    intro h
    by_cases hd : p d = true
    · rw [List.dropWhile_cons_of_pos hd] at h ⊢
      have hds : ds ≠ [] := by
        intro he
        rw [he] at h
        exact h rfl
      obtain ⟨e, es, hde⟩ := List.exists_cons_of_ne_nil hds
      rw [ih h, hde, List.getLast?_cons_cons]
    · rw [List.dropWhile_cons_of_neg (by simpa using hd)]

theorem getLast?_cons_ne {d : Char} {ds : List Char} (h : ds ≠ []) :
    (d :: ds).getLast? = ds.getLast? := by
  obtain ⟨e, es, he⟩ := List.exists_cons_of_ne_nil h
  rw [he, List.getLast?_cons_cons]

theorem mem_of_mem_trimEnds {p : Char → Bool} {l : List Char} {c : Char}
    (h : c ∈ trimEnds p l) : c ∈ l := by
  unfold trimEnds at h
  rw [List.mem_reverse] at h
  have h2 := mem_of_mem_dropWhile _ c h
  rw [List.mem_reverse] at h2
  exact mem_of_mem_dropWhile _ c h2

theorem chain'_trimEnds {l : List Char} (h : List.Chain' DashRel l) :
    List.Chain' DashRel (trimEnds isDashOrSpace l) := by
  unfold trimEnds
  exact chain'_reverse_dashRel
    (chain'_dropWhile _ (chain'_reverse_dashRel (chain'_dropWhile _ h)))

theorem trimEnds_head {p : Char → Bool} {l : List Char} :
    ∀ c, (trimEnds p l).head? = some c → p c = false := by
  intro c h
  unfold trimEnds at h
  rw [List.head?_reverse] at h
  have hb : ((l.dropWhile p).reverse).dropWhile p ≠ [] := by
    intro he
    rw [he] at h
    simp at h
  rw [getLast_dropWhile_eq _ hb, List.getLast?_reverse] at h
  exact head_dropWhile_false _ c h

theorem trimEnds_last {p : Char → Bool} {l : List Char} :
    ∀ c, (trimEnds p l).getLast? = some c → p c = false := by
  intro c h
  unfold trimEnds at h
  rw [List.getLast?_reverse] at h
  exact head_dropWhile_false _ c h

theorem trimEnds_ne_nil {p : Char → Bool} {l : List Char} {c : Char}
    (hm : c ∈ l) (hp : p c = false) : trimEnds p l ≠ [] := by
  unfold trimEnds
  intro he
  rw [List.reverse_eq_nil_iff] at he
  have h1 : c ∈ (l.dropWhile p).reverse :=
    List.mem_reverse.mpr (mem_dropWhile_of_mem _ c hm hp)
  have h2 := mem_dropWhile_of_mem _ c h1 hp
  rw [he] at h2
  simp at h2

theorem trimEnds_id {p : Char → Bool} {l : List Char}
    (hh : ∀ c, l.head? = some c → p c = false)
    (hl : ∀ c, l.getLast? = some c → p c = false) : trimEnds p l = l := by
  unfold trimEnds
  rw [dropWhile_eq_self_of_head hh]
  rw [dropWhile_eq_self_of_head
    (by intro c hc; rw [List.head?_reverse] at hc; exact hl c hc)]
  exact List.reverse_reverse l

theorem dash_not_space {c : Char} (h : isDash c = true) : isJsSpace c = false := by
  rw [isDash_iff] at h
  rw [Bool.eq_false_iff, Ne, isJsSpace_iff]
  omega

theorem not_dashspace_not_dash {c : Char} (h : isDashOrSpace c = false) :
    isDash c = false := by
  cases hB : isDash c
  · rfl
  · unfold isDashOrSpace at h
    rw [hB] at h
    exact absurd h (by simp)

theorem dashspace_false_of {c : Char} (hd : isDash c = false) (hw : isJsSpace c = false) :
    isDashOrSpace c = false := by
  unfold isDashOrSpace
  rw [hd, hw]
  rfl

theorem map_id_of_mem {f : Char → Char} :
    ∀ l : List Char, (∀ c ∈ l, f c = c) → l.map f = l := by
  intro l
  induction l with
  | nil => intro _; rfl
  | cons d ds ih =>
    intro h
    simp only [List.map_cons]
    rw [h d (List.mem_cons_self d ds),
      ih (fun c hc => h c (List.mem_cons_of_mem d hc))]

/-- The structural invariant of `slugify` output: every character is a slug
character (lowercase letter, digit, underscore) or a hyphen, hyphens are
never adjacent, and neither end is a hyphen. -/
def SlugInv (l : List Char) : Prop :=
  (∀ c ∈ l, isSlugCharU c = true ∨ isDash c = true) ∧
  List.Chain' DashRel l ∧
  (∀ c, l.head? = some c → isDash c = false) ∧
  (∀ c, l.getLast? = some c → isDash c = false)

theorem slugify_inv (s : List Char) : SlugInv (slugify s) := by
  unfold slugify collapseRuns
  have m2 : ∀ c ∈ (s.map jsToLower).filter keepSlugChar,
      isSlugCharU c = true ∨ isJsSpace c = true ∨ isDash c = true := by
    intro c hc
    rw [List.mem_filter] at hc
    obtain ⟨hm, hk⟩ := hc
    rw [List.mem_map] at hm
    obtain ⟨a, _, rfl⟩ := hm
    exact keep_lower_class a hk
  have m3 : ∀ c ∈ collapseRunsAux isJsSpace '-' false
      ((s.map jsToLower).filter keepSlugChar),
      isSlugCharU c = true ∨ isDash c = true := by
    intro c hc
    rcases mem_collapseRunsAux _ false c hc with rfl | ⟨hm, hw⟩
    · exact Or.inr rfl
    · rcases m2 c hm with hs | hw2 | hd
      · exact Or.inl hs
      · rw [hw2] at hw
        exact absurd hw (by simp)
      · exact Or.inr hd
  have m4 : ∀ c ∈ collapseRunsAux isDash '-' false
      (collapseRunsAux isJsSpace '-' false ((s.map jsToLower).filter keepSlugChar)),
      isSlugCharU c = true ∨ isDash c = true := by
    intro c hc
    rcases mem_collapseRunsAux _ false c hc with rfl | ⟨hm, _⟩
    · exact Or.inr rfl
    · exact m3 c hm
  have hchain4 := (collapse_dash_chain
    (collapseRunsAux isJsSpace '-' false ((s.map jsToLower).filter keepSlugChar))).2.1
  refine ⟨?_, ?_, ?_, ?_⟩
  · intro c hc
    exact m4 c (mem_of_mem_trimEnds hc)
  · exact chain'_trimEnds hchain4
  · intro c hc
    exact not_dashspace_not_dash (trimEnds_head c hc)
  · intro c hc
    exact not_dashspace_not_dash (trimEnds_last c hc)

theorem slugify_ne_nil {s : List Char} (h : s.any isAsciiAlnum = true) :
    slugify s ≠ [] := by
  rw [List.any_eq_true] at h
  obtain ⟨a, ha, hal⟩ := h
  obtain ⟨hslug, hkeep⟩ := alnum_lower_slug a hal
  unfold slugify collapseRuns
  apply trimEnds_ne_nil (c := jsToLower a)
  · apply mem_collapseRunsAux_of_mem
    · apply mem_collapseRunsAux_of_mem
      · exact List.mem_filter.mpr ⟨List.mem_map_of_mem jsToLower ha, hkeep⟩
      · exact slugU_not_space hslug
    · exact slugU_not_dash hslug
  · exact slugU_not_dashspace hslug

theorem slugInv_matches : ∀ l : List Char,
    (∀ c ∈ l, isSlugCharU c = true ∨ isDash c = true) →
    List.Chain' DashRel l →
    ((∀ c, l.getLast? = some c → isDash c = false) →
      matchesSlugWith isSlugCharU true l = true) ∧
    ((∀ c, l.head? = some c → isDash c = false) →
     (∀ c, l.getLast? = some c → isDash c = false) → l ≠ [] →
      matchesSlugWith isSlugCharU false l = true) := by
  intro l
  induction l with
  | nil => exact fun _ _ => ⟨fun _ => rfl, fun _ _ h => absurd rfl h⟩
  | cons d ds ih =>
    intro hmem hchain
    have hmem2 : ∀ c ∈ ds, isSlugCharU c = true ∨ isDash c = true :=
      fun c hc => hmem c (List.mem_cons_of_mem d hc)
    have hchain2 := (List.chain'_cons'.mp hchain).2
    have ihds := ih hmem2 hchain2
    constructor
    · intro hlast
      by_cases hd : isDash d = true
      · have hd45 : d.toNat = 45 := by simpa [isDash] using hd
        have hds_ne : ds ≠ [] := by
          intro he
          subst he
          exact absurd (hlast d rfl) (by simp [hd])
        have hhead2 : ∀ c, ds.head? = some c → isDash c = false := by
          intro c hc
          have hrel := (List.chain'_cons'.mp hchain).1 c (Option.mem_def.mpr hc)
          cases hB : isDash c
          · rfl
          · exact absurd ⟨hd45, by simpa [isDash] using hB⟩ hrel
        have hlast2 : ∀ c, ds.getLast? = some c → isDash c = false := by
          intro c hc
          exact hlast c (by rw [getLast?_cons_ne hds_ne]; exact hc)
        rw [matchesSlugWith, if_pos rfl, if_pos hd45]
        exact ihds.2 hhead2 hlast2 hds_ne
      · have hd2 : isDash d = false := Bool.eq_false_iff.mpr hd
        have hd45 : ¬(d.toNat = 45) := of_decide_eq_false hd2
        have hslug : isSlugCharU d = true := by
          rcases hmem d (List.mem_cons_self d ds) with h | h
          · exact h
          · rw [h] at hd2
            exact absurd hd2 (by simp)
        rw [matchesSlugWith, if_pos rfl, if_neg hd45, hslug, Bool.true_and]
        apply ihds.1
        intro c hc
        have hne : ds ≠ [] := by
          intro he
          rw [he] at hc
          simp at hc
        exact hlast c (by rw [getLast?_cons_ne hne]; exact hc)
    · intro hhead hlast _
      have hd2 : isDash d = false := hhead d rfl
      have hslug : isSlugCharU d = true := by
        rcases hmem d (List.mem_cons_self d ds) with h | h
        · exact h
        · rw [h] at hd2
          exact absurd hd2 (by simp)
      rw [matchesSlugWith, if_neg (by simp), hslug, Bool.true_and]
      apply ihds.1
      intro c hc
      have hne : ds ≠ [] := by
        intro he
        rw [he] at hc
        simp at hc
      exact hlast c (by rw [getLast?_cons_ne hne]; exact hc)

theorem mem_of_getLast?_eq {l : List Char} {c : Char} (h : l.getLast? = some c) :
    c ∈ l := by
  rw [← List.head?_reverse] at h
  have hmem : c ∈ l.reverse := by
    cases hr : l.reverse with
    | nil =>
      rw [hr] at h
      simp at h
    | cons e es =>
      rw [hr] at h
      simp only [List.head?_cons, Option.some.injEq] at h
      rw [← h]
      exact List.mem_cons_self e es
  exact List.mem_reverse.mp hmem

theorem slugInv_fixed {l : List Char} (h : SlugInv l) : slugify l = l := by
  obtain ⟨hmem, hchain, hhead, hlast⟩ := h
  unfold slugify collapseRuns
  have h1 : l.map jsToLower = l := by
    apply map_id_of_mem
    intro c hc
    rcases hmem c hc with hs | hd
    · exact slugU_lower_id hs
    · exact dash_lower_id (by simpa [isDash] using hd)
  rw [h1]
  have h2 : l.filter keepSlugChar = l := by
    apply List.filter_eq_self.mpr
    intro c hc
    rcases hmem c hc with hs | hd
    · exact keepSlugChar_iff.mpr (Or.inl (slugU_word hs))
    · exact keepSlugChar_iff.mpr (Or.inr (Or.inr hd))
  rw [h2]
  have h3 : collapseRunsAux isJsSpace '-' false l = l := by
    apply collapseRunsAux_id
    intro c hc
    rcases hmem c hc with hs | hd
    · exact slugU_not_space hs
    · exact dash_not_space hd
  rw [h3]
  have h4 : collapseRunsAux isDash '-' false l = l := (collapse_dash_id l hchain).1
  rw [h4]
  apply trimEnds_id
  · intro c hc
    refine dashspace_false_of (hhead c hc) ?_
    have hm : c ∈ l := by
      cases l with
      | nil => simp at hc
      | cons e es =>
        simp only [List.head?_cons, Option.some.injEq] at hc
        exact hc ▸ List.mem_cons_self e es
    rcases hmem c hm with hs | hd
    · exact slugU_not_space hs
    · exact dash_not_space hd
  · intro c hc
    refine dashspace_false_of (hlast c hc) ?_
    have hm : c ∈ l := mem_of_getLast?_eq hc
    rcases hmem c hm with hs | hd
    · exact slugU_not_space hs
    · exact dash_not_space hd

/-- Counterexample to C1 as stated: the input `a_b` is non-empty and contains
alphanumeric characters, yet `slugify` keeps the underscore (JS `\w`), so the
output `a_b` does not match `^[a-z0-9]+(-[a-z0-9]+)*$`. -/
theorem C1_counterexample :
    ((("a_b").data ≠ ([] : List Char)) ∧ (("a_b").data).any isAsciiAlnum = true) ∧
    slugify (("a_b").data) = ("a_b").data ∧
    matchesSlugRegex (slugify (("a_b").data)) = false := by decide

/-- C1 amended: for every non-empty input containing at least one ASCII
alphanumeric character, `slugify` is idempotent and its output matches
`^[a-z0-9_]+(-[a-z0-9_]+)*$` — non-empty, with single interior hyphens, no
leading or trailing hyphen, over lowercase letters, digits and underscores
(the underscore is kept because JS `\w` includes it). -/
theorem C1_slugify_idempotent_shape (s : List Char) (hne : s ≠ [])
    (h2 : s.any isAsciiAlnum = true) :
    slugify (slugify s) = slugify s ∧ matchesSlugRegexU (slugify s) = true := by
  have hinv := slugify_inv s
  refine ⟨slugInv_fixed hinv, ?_⟩
  obtain ⟨hmem, hchain, hhead, hlast⟩ := hinv
  unfold matchesSlugRegexU
  exact (slugInv_matches (slugify s) hmem hchain).2 hhead hlast (slugify_ne_nil h2)

/-- Witness for C1 amended at `Hello, World!`. -/
theorem C1_slugify_idempotent_shape_witness :
    slugify (slugify (("Hello, World!").data)) = slugify (("Hello, World!").data) ∧
    matchesSlugRegexU (slugify (("Hello, World!").data)) = true :=
  C1_slugify_idempotent_shape (("Hello, World!").data) (by decide) (by decide)

end GeneratedDocs
